import Mathlib
set_option maxRecDepth 4000000

/-!
Verification of the genotype ingestion and reconciliation engine of
`lineage/individual.py` (class `Individual`).

The pandas `DataFrame` indexed by `rsid` with columns `chrom`, `pos`,
`genotype` is embedded as a `List SNP`; the index is the `rsid` field.
`chrom` and `pos` are never null in the data this engine produces
(parsers always fill them), so they are embedded as plain `String` and
`Int`; `genotype` may be null (`NaN`), so it is an `Option String`.
`self._snps` is embedded as `Option Table` (`None` before the first
successful load).  The `astype(np.int64)` re-coercion of `pos` after
`combine_first` is the identity in this embedding, since `pos` is kept
an `Int` throughout (the float round-trip is lossless for genomic
coordinates).
-/

namespace Lineage

/-- One row of the canonical SNP table: the `rsid` index value plus the
`chrom`, `pos` and `genotype` columns of `individual.py`. -/
structure SNP where
  rsid : String
  chrom : String
  pos : Int
  genotype : Option String
deriving DecidableEq, Repr

/-- The canonical table: a pandas DataFrame indexed by `rsid`. -/
abbrev Table := List SNP

/-- The index of the table (pandas `df.index`). -/
def keys (t : Table) : List String := t.map SNP.rsid

/-- Row selection by index value (pandas `df.loc[k]` for a unique index). -/
def lookup (t : Table) (k : String) : Option SNP := t.find? (fun r => r.rsid == k)

/-- Embeds `Individual._double_single_alleles(df, chrom)`: every row on
chromosome `chrom` whose genotype has length 1 gets that genotype
string-multiplied by 2 (`'A' * 2 == 'AA'`); null genotypes fail the pandas
`str.len() == 1` test and are untouched, as are all other rows. -/
def doubleSingleAlleles (df : Table) (chrom : String) : Table :=
  df.map (fun r =>
    if r.chrom == chrom && r.genotype.map String.length == some 1 then
      { r with genotype := r.genotype.map (fun g => g ++ g) }
    else r)

/-- Stable insertion of `a` into `l`: `a` goes before the first element
`b` with `le a b` false... more precisely, before the first `b` such that
`le a b` holds, hence after every earlier element it ties with. -/
def insertLE {α : Type} (le : α → α → Bool) (a : α) : List α → List α
  | [] => [a]
  | b :: l => if le a b then a :: b :: l else b :: insertLE le a l

/-- Stable sort by a boolean total preorder.  Python's `sorted` and the
multi-column `sort_values` (a lexsort) are stable sorts; any two stable
sorts agree on every input, so this insertion sort is an exact model of
both. -/
def sortBy {α : Type} (le : α → α → Bool) : List α → List α
  | [] => []
  | a :: l => insertLE le a (sortBy le l)

/-- Lexicographic (code-point) comparison of character lists: Python's
`str.__lt__`. -/
def charListLT : List Char → List Char → Bool
  | _, [] => false
  | [], _ :: _ => true
  | a :: as, b :: bs => decide (a < b) || (a == b && charListLT as bs)

/-- One token of `Individual._natural_sort_key`: `re.split('([0-9]+)', s)`
yields digit runs (converted by `int`) interleaved with non-digit pieces
(converted by `str.lower`). -/
inductive NatToken where
  | num : Nat → NatToken
  | alpha : String → NatToken
deriving DecidableEq, Repr

/-- Decimal value of a digit run (Python `int(text)`). -/
def digitsVal (cs : List Char) : Nat :=
  cs.foldl (fun a c => a * 10 + (c.toNat - 48)) 0

/-- Whether a (homogeneous, nonempty) character run is a digit run. -/
def runIsDigit (r : List Char) : Bool := (r.headD ' ').isDigit

/-- Token for one run produced by the split. -/
def runToken (r : List Char) : NatToken :=
  if runIsDigit r then NatToken.num (digitsVal r)
  else NatToken.alpha (String.mk (r.map Char.toLower))

/-- Embeds `Individual._natural_sort_key(s)`.  `re.split` with a capturing
group returns the (possibly empty) non-digit piece before the first digit
run and after the last one, so those empty pieces are materialized here;
between runs the alternation is automatic because runs are maximal. -/
def naturalSortKey (s : String) : List NatToken :=
  let runs := s.toList.splitBy (fun a b => a.isDigit == b.isDigit)
  if runs.isEmpty then [NatToken.alpha ""]
  else
    let core := runs.map runToken
    let withLead := if runIsDigit (runs.headD []) then NatToken.alpha "" :: core else core
    if runIsDigit (runs.getLastD []) then withLead ++ [NatToken.alpha ""] else withLead

/-- Python comparison `tok1 < tok2` between two key tokens.  In the code
the two positions compared always hold the same token kind (the split
alternates non-digit and digit pieces), so the mixed cases are never
exercised; they are set arbitrarily to keep the function total. -/
def tokenLTb : NatToken → NatToken → Bool
  | NatToken.num a, NatToken.num b => a < b
  | NatToken.alpha a, NatToken.alpha b => charListLT a.toList b.toList
  | NatToken.num _, NatToken.alpha _ => true
  | NatToken.alpha _, NatToken.num _ => false

/-- Python list comparison `key1 <= key2` (lexicographic). -/
def keyLE : List NatToken → List NatToken → Bool
  | [], _ => true
  | _ :: _, [] => false
  | a :: as, b :: bs => tokenLTb a b || (a == b && keyLE as bs)

/-- The ordering used by `sorted(..., key=self._natural_sort_key)`. -/
def labelLE (a b : String) : Bool := keyLE (naturalSortKey a) (naturalSortKey b)

/-- First-occurrence deduplication (pandas `Series.unique()`). -/
def uniqueInOrder : List String → List String
  | [] => []
  | x :: xs => x :: (uniqueInOrder xs).filter (fun y => !(y == x))

/-- The ordered category list built by `Individual._sort_snps`: natural
sort of the distinct chromosome labels, then `PAR` moved to the end, then
`MT` moved to the end. -/
def chromOrderOf (t : Table) : List String :=
  let sortedList := sortBy labelLE (uniqueInOrder (t.map SNP.chrom))
  let l1 := if sortedList.contains "PAR" then sortedList.erase "PAR" ++ ["PAR"] else sortedList
  if l1.contains "MT" then l1.erase "MT" ++ ["MT"] else l1

/-- Row comparison of `sort_values(['chrom', 'pos'])`: by chromosome rank
in the ordered category list, then by position. -/
def rowLE (order : List String) (a b : SNP) : Bool :=
  order.indexOf a.chrom < order.indexOf b.chrom ||
  (order.indexOf a.chrom == order.indexOf b.chrom && decide (a.pos ≤ b.pos))

/-- Embeds `Individual._sort_snps` (a pure function of the table: the
multi-column `sort_values` is a stable lexicographic sort). -/
def sortSNPs (t : Table) : Table := sortBy (rowLE (chromOrderOf t)) t

/-- Embeds `self._snps.join(snps, how='inner', rsuffix='_added')`: for
each row of the accumulated table whose rsid also indexes the candidate,
the pair (accumulated row, candidate row). -/
def commonSNPs (acc snps : Table) : List (SNP × SNP) :=
  acc.filterMap (fun a => (lookup snps a.rsid).map (fun b => (a, b)))

/-- Embeds the `discrepant_positions` selection: common rows whose
chromosome or position differ between the two tables. -/
def discrepantPositionsOf (acc snps : Table) : List (SNP × SNP) :=
  (commonSNPs acc snps).filter (fun p =>
    !(p.1.chrom == p.2.chrom) || !(p.1.pos == p.2.pos))

/-- Embeds the `remove null genotypes` step: common rows where both
genotypes are non-null. -/
def bothGenotypesPresent (acc snps : Table) : List (SNP × SNP) :=
  (commonSNPs acc snps).filter (fun p =>
    p.1.genotype.isSome && p.2.genotype.isSome)

/-- Embeds the `discrepant_genotypes` row predicate on two non-null
genotype strings: both length 1 with different characters, or both
length 2 with neither the direct nor the swapped allele pairing matching;
every other length combination fails both branches of the pandas mask. -/
def discrepantGenotype (s1 s2 : String) : Bool :=
  match s1.toList, s2.toList with
  | [a], [b] => !(a == b)
  | [a1, a2], [b1, b2] => !((a1 == b1 && a2 == b2) || (a1 == b2 && a2 == b1))
  | _, _ => false

/-- Embeds the `discrepant_genotypes` selection. -/
def discrepantGenotypesOf (acc snps : Table) : List (SNP × SNP) :=
  (bothGenotypesPresent acc snps).filter (fun p =>
    match p.1.genotype, p.2.genotype with
    | some g1, some g2 => discrepantGenotype g1 g2
    | _, _ => false)

/-- The rsids of a selection of common rows (`DataFrame.index` of the
selection: the left row of each pair carries the shared index value). -/
def discrepantKeys (l : List (SNP × SNP)) : List String := l.map (fun p => p.1.rsid)

/-- String comparison used when pandas sorts a string index union. -/
def strLE (a b : String) : Bool := a == b || charListLT a.toList b.toList

/-- Embeds the index of `df1.combine_first(df2)` (pandas `Index.union`):
identical indexes are returned as-is (the `self.equals(other)` fast
path); otherwise the union is formed and sorted. -/
def indexUnion (a b : List String) : List String :=
  if a = b then a
  else sortBy strLE (a ++ b.filter (fun k => !(a.contains k)))

/-- The combined row of `combine_first` at index value `k`: values
already present in the accumulated row win; null values are filled from
the candidate row.  `chrom` and `pos` are never null here, so only the
genotype can be filled. -/
def combineRow (acc snps : Table) (k : String) : Option SNP :=
  match lookup acc k, lookup snps k with
  | some a, some b =>
      some { rsid := k, chrom := a.chrom, pos := a.pos, genotype := a.genotype.or b.genotype }
  | some a, none => some a
  | none, some b => some b
  | none, none => none

/-- Embeds `self._snps.combine_first(snps)`. -/
def combineFirst (acc snps : Table) : Table :=
  (indexUnion (keys acc) (keys snps)).filterMap (combineRow acc snps)

/-- The nulling of discrepant genotypes after the merge
(`self._snps.loc[discrepant_genotypes.index, 'genotype'] = np.nan`). -/
def nullDiscrepant (acc snps : Table) (r : SNP) : SNP :=
  if (discrepantKeys (discrepantGenotypesOf acc snps)).contains r.rsid then
    { r with genotype := none }
  else r

/-- The accumulated table produced by an applied (non-aborted) merge:
`combine_first`, then the discrepant-genotype nulling, then the
(identity, see the header) position re-coercion. -/
def mergedTable (acc snps : Table) : Table :=
  (combineFirst acc snps).map (nullDiscrepant acc snps)

/-- The tail of `_add_snps` after the position-discrepancy gate: the
genotype-discrepancy gate, then the merge and the final `_sort_snps`. -/
def mergeStage (acc snps : Table) (genoT : Nat) : Option Table :=
  let discGeno := discrepantGenotypesOf acc snps
  if 0 < discGeno.length ∧ discGeno.length < genoT then some (sortSNPs (mergedTable acc snps))
  else if genoT ≤ discGeno.length then some acc
  else some (sortSNPs (mergedTable acc snps))

/-- Embeds `Individual._add_snps(snps, posT, genoT)` as a pure function
from the current `self._snps` (an `Option Table`) to the new one.  A
`None` candidate returns immediately; otherwise the candidate is
normalized by `_double_single_alleles(snps, 'X')`, adopted as-is when no
table exists yet, and otherwise passed through the position-discrepancy
gate (`print` calls are no-ops here; the two `return` statements are the
`some acc` abort branches). -/
def addSNPs (accOpt : Option Table) (snpsOpt : Option Table) (posT genoT : Nat) : Option Table :=
  match snpsOpt with
  | none => accOpt
  | some snps0 =>
    let snps := doubleSingleAlleles snps0 "X"
    match accOpt with
    | none => some (sortSNPs snps)
    | some acc =>
      let discPos := discrepantPositionsOf acc snps
      if 0 < discPos.length ∧ discPos.length < posT then mergeStage acc snps genoT
      else if posT ≤ discPos.length then some acc
      else mergeStage acc snps genoT

/-- Sequential processing of a batch of already-read files (the `for`
loop of `load_snps`); each list entry is the result of
`_read_raw_data` for one file (`none` for a missing, unrecognized or
unparseable file). -/
def addAll (st : Option Table) (tables : List (Option Table)) (posT genoT : Nat) : Option Table :=
  tables.foldl (fun s t => addSNPs s t posT genoT) st

/-- The shape of the `raw_data` argument of `load_snps`: a single path
string, a list of path strings, or anything else. -/
inductive RawData where
  | single : String → RawData
  | multiple : List String → RawData
  | invalid : RawData
deriving DecidableEq, Repr

/-- Embeds `Individual.load_snps`.  File reading is abstracted by
`readRaw` (the pure result of `_read_raw_data` per path); an argument
that is neither a `str` nor a `list` raises `TypeError('invalid
filetype')`, embedded as `Except.error`. -/
def load_snps (st : Option Table) (readRaw : String → Option Table) (raw : RawData)
    (posT genoT : Nat) : Except String (Option Table) :=
  match raw with
  | RawData.single f => Except.ok (addSNPs st (readRaw f) posT genoT)
  | RawData.multiple files => Except.ok (addAll st (files.map readRaw) posT genoT)
  | RawData.invalid => Except.error "invalid filetype"

/-- The `_snps` field right after `__init__` with no raw data. -/
def initialSnps : Option Table := none

/-- Embeds the `snps` property: `self._snps.copy()` when a table exists
(a fresh, row-for-row equal table), `None` otherwise. -/
def snpsAccessor (s : Option Table) : Option Table :=
  match s with
  | some t => some (t.map (fun r => r))
  | none => none

/-- The chromosome labels of the data model
(`{"1".."22","X","Y","PAR","MT"}`). -/
def validChroms : List String :=
  ["1", "2", "3", "4", "5", "6", "7", "8", "9", "10", "11", "12", "13",
   "14", "15", "16", "17", "18", "19", "20", "21", "22", "X", "Y", "PAR", "MT"]

/-- Distinct two-letter rsid literals for generated test tables. -/
def rsName (i : Nat) : String := String.mk [Char.ofNat (65 + i / 10), Char.ofNat (65 + i % 10)]

/-- A table of `n` rows on chromosome 1 at positions `0, 1, ...` with null genotypes. -/
def basePosTable (n : Nat) : Table :=
  (List.range n).map (fun i =>
    { rsid := rsName i, chrom := "1", pos := (i : Int), genotype := none })

/-- The same rsids, with the first `m` positions shifted by 1000 (position-discrepant). -/
def posShiftTable (n m : Nat) : Table :=
  (List.range n).map (fun i =>
    { rsid := rsName i, chrom := "1", pos := (i : Int) + (if i < m then 1000 else 0),
      genotype := none })

/-- A table with one row on each chromosome label of the spec's sorting example. -/
def chromExampleTable : Table :=
  [{ rsid := "r1", chrom := "2", pos := 1, genotype := none },
   { rsid := "r2", chrom := "1", pos := 1, genotype := none },
   { rsid := "r3", chrom := "10", pos := 1, genotype := none },
   { rsid := "r4", chrom := "X", pos := 1, genotype := none },
   { rsid := "r5", chrom := "MT", pos := 1, genotype := none },
   { rsid := "r6", chrom := "PAR", pos := 1, genotype := none }]

/-!  Infrastructure lemmas about the embedded table operations. -/

theorem insertLE_perm {α : Type} (le : α → α → Bool) (a : α) (l : List α) :
    (insertLE le a l).Perm (a :: l) := by
  induction l with
  | nil => exact List.Perm.refl _
  | cons b l ih =>
    unfold insertLE
    split
    · exact List.Perm.refl _
    · exact (ih.cons b).trans (List.Perm.swap a b l)

theorem sortBy_perm {α : Type} (le : α → α → Bool) (l : List α) :
    (sortBy le l).Perm l := by
  induction l with
  | nil => exact List.Perm.refl _
  | cons a l ih => exact (insertLE_perm le a _).trans (ih.cons a)

theorem mem_insertLE' {α : Type} {le : α → α → Bool} {a x : α} {l : List α} :
    x ∈ insertLE le a l ↔ x = a ∨ x ∈ l := by
  rw [(insertLE_perm le a l).mem_iff, List.mem_cons]

theorem pairwise_insertLE {α : Type} {le : α → α → Bool}
    (htrans : ∀ x y z, le x y = true → le y z = true → le x z = true)
    (htotal : ∀ x y, le x y = true ∨ le y x = true) {a : α} {l : List α}
    (hl : l.Pairwise (fun x y => le x y = true)) :
    (insertLE le a l).Pairwise (fun x y => le x y = true) := by
  induction l with
  | nil => simp [insertLE]
  | cons b l ih =>
    rcases List.pairwise_cons.mp hl with ⟨hb, hl'⟩
    unfold insertLE
    split
    · next hab =>
      refine List.pairwise_cons.mpr ⟨?_, hl⟩
      intro x hx
      rcases List.mem_cons.mp hx with rfl | hxl
      · exact hab
      · exact htrans _ _ _ hab (hb x hxl)
    · next hab =>
      have hba : le b a = true := by
        rcases htotal a b with h | h
        · exact absurd h hab
        · exact h
      refine List.pairwise_cons.mpr ⟨?_, ih hl'⟩
      intro x hx
      rcases mem_insertLE'.mp hx with rfl | hxl
      · exact hba
      · exact hb x hxl

theorem sortBy_sorted {α : Type} {le : α → α → Bool}
    (htrans : ∀ x y z, le x y = true → le y z = true → le x z = true)
    (htotal : ∀ x y, le x y = true ∨ le y x = true) (l : List α) :
    (sortBy le l).Pairwise (fun x y => le x y = true) := by
  induction l with
  | nil => simp [sortBy]
  | cons a l ih => exact pairwise_insertLE htrans htotal ih

theorem keys_doubleSingleAlleles (t : Table) (c : String) :
    keys (doubleSingleAlleles t c) = keys t := by
  simp only [keys, doubleSingleAlleles, List.map_map]
  refine List.map_congr_left ?_
  intro r _
  simp only [Function.comp_apply]
  split <;> rfl

theorem lookup_rsid {t : Table} {k : String} {r : SNP} (h : lookup t k = some r) :
    r.rsid = k := by
  have := List.find?_some h
  simpa using this

theorem lookup_mem {t : Table} {k : String} {r : SNP} (h : lookup t k = some r) :
    r ∈ t := List.mem_of_find?_eq_some h

theorem lookup_isSome_iff {t : Table} {k : String} :
    (lookup t k).isSome ↔ k ∈ keys t := by
  simp only [lookup, keys, List.find?_isSome, List.mem_map, beq_iff_eq]

theorem lookup_eq_none_iff {t : Table} {k : String} :
    lookup t k = none ↔ k ∉ keys t := by
  rw [← lookup_isSome_iff, ← Option.not_isSome_iff_eq_none]

theorem lookup_eq_some_iff {t : Table} {k : String} {r : SNP}
    (hn : (keys t).Nodup) : lookup t k = some r ↔ r ∈ t ∧ r.rsid = k := by
  induction t with
  | nil => simp [lookup]
  | cons a t ih =>
    simp only [keys, List.map_cons, List.nodup_cons, List.mem_map] at hn
    by_cases hk : a.rsid = k
    · rw [lookup, List.find?_cons_of_pos _ (by simp [hk])]
      constructor
      · rintro h
        injection h with h
        subst h
        exact ⟨List.mem_cons_self _ _, hk⟩
      · rintro ⟨hr, hrk⟩
        rcases List.mem_cons.mp hr with rfl | hrt
        · rfl
        · exact absurd ⟨r, hrt, by rw [hrk, hk]⟩ hn.1
    · rw [lookup, List.find?_cons_of_neg _ (by simp [hk])]
      rw [← lookup, ih hn.2]
      constructor
      · rintro ⟨hr, hrk⟩; exact ⟨List.mem_cons_of_mem a hr, hrk⟩
      · rintro ⟨hr, hrk⟩
        rcases List.mem_cons.mp hr with rfl | hrt
        · exact absurd hrk hk
        · exact ⟨hrt, hrk⟩

theorem keys_perm {t t' : Table} (hp : t.Perm t') : (keys t).Perm (keys t') :=
  hp.map SNP.rsid

theorem lookup_eq_of_perm {t t' : Table} (hp : t.Perm t') (hn : (keys t).Nodup)
    (k : String) : lookup t' k = lookup t k := by
  have hn' : (keys t').Nodup := ((keys_perm hp).nodup_iff).mp hn
  cases h : lookup t k with
  | some r =>
    rw [lookup_eq_some_iff hn']
    rw [lookup_eq_some_iff hn] at h
    exact ⟨hp.mem_iff.mp h.1, h.2⟩
  | none =>
    rw [lookup_eq_none_iff] at h ⊢
    intro hk
    exact h (((keys_perm hp).mem_iff).mpr hk)

theorem nodup_of_keys_nodup {t : Table} (h : (keys t).Nodup) : t.Nodup :=
  List.Nodup.of_map SNP.rsid h

theorem mem_uniqueInOrder {l : List String} {a : String} :
    a ∈ uniqueInOrder l ↔ a ∈ l := by
  induction l with
  | nil => simp [uniqueInOrder]
  | cons x xs ih =>
    simp only [uniqueInOrder, List.mem_cons, List.mem_filter]
    constructor
    · rintro (rfl | ⟨h, _⟩)
      · exact .inl rfl
      · exact .inr (ih.mp h)
    · rintro (rfl | h)
      · exact .inl rfl
      · by_cases hxa : a = x
        · exact .inl hxa
        · exact .inr ⟨ih.mpr h, by simp [hxa]⟩

theorem nodup_uniqueInOrder (l : List String) : (uniqueInOrder l).Nodup := by
  induction l with
  | nil => simp [uniqueInOrder]
  | cons x xs ih =>
    simp only [uniqueInOrder, List.nodup_cons]
    refine ⟨?_, ih.filter _⟩
    intro hx
    have := (List.mem_filter.mp hx).2
    simp at this

theorem mem_indexUnion {a b : List String} {k : String} :
    k ∈ indexUnion a b ↔ k ∈ a ∨ k ∈ b := by
  unfold indexUnion
  split
  · next h => rw [h]; simp
  · rw [(sortBy_perm _ _).mem_iff]
    simp only [List.mem_append, List.mem_filter, Bool.not_eq_eq_eq_not, Bool.not_true,
      List.elem_eq_mem, decide_eq_false_iff_not]
    constructor
    · rintro (h | ⟨h, _⟩)
      · exact .inl h
      · exact .inr h
    · rintro (h | h)
      · exact .inl h
      · by_cases hka : k ∈ a
        · exact .inl hka
        · exact .inr ⟨h, hka⟩

theorem nodup_indexUnion {a b : List String} (ha : a.Nodup) (hb : b.Nodup) :
    (indexUnion a b).Nodup := by
  unfold indexUnion
  split
  · exact ha
  · refine ((sortBy_perm _ _).nodup_iff).mpr ?_
    refine ha.append (hb.filter _) ?_
    intro x hxa hxf
    have := (List.mem_filter.mp hxf).2
    simp only [Bool.not_eq_eq_eq_not, Bool.not_true, List.elem_eq_mem,
      decide_eq_false_iff_not] at this
    exact this hxa

theorem combineRow_rsid {acc snps : Table} {k : String} {r : SNP}
    (h : combineRow acc snps k = some r) : r.rsid = k := by
  unfold combineRow at h
  cases ha : lookup acc k <;> cases hb : lookup snps k <;> rw [ha, hb] at h
  · simp at h
  · cases h; exact lookup_rsid hb
  · cases h; exact lookup_rsid ha
  · cases h; rfl

theorem combineRow_isSome_iff {acc snps : Table} {k : String} :
    (combineRow acc snps k).isSome ↔ (k ∈ keys acc ∨ k ∈ keys snps) := by
  rw [← lookup_isSome_iff, ← lookup_isSome_iff]
  unfold combineRow
  cases lookup acc k <;> cases lookup snps k <;> simp

theorem lookup_filterMap {ks : List String} {f : String → Option SNP}
    (hf : ∀ k r, f k = some r → r.rsid = k) (hk : ks.Nodup) (k : String) :
    lookup (ks.filterMap f) k = if k ∈ ks then f k else none := by
  induction ks with
  | nil => simp [lookup]
  | cons x xs ih =>
    rw [List.filterMap_cons]
    rcases List.nodup_cons.mp hk with ⟨hx, hxs⟩
    cases hfx : f x with
    | none =>
      rw [ih hxs]
      by_cases hkx : k = x
      · subst hkx; simp [hx, hfx]
      · simp [hkx]
    | some r =>
      have hr : r.rsid = x := hf x r hfx
      by_cases hkx : k = x
      · subst hkx
        rw [lookup, List.find?_cons_of_pos _ (by simp [hr])]
        simp [hfx]
      · rw [lookup, List.find?_cons_of_neg _ (by simp [hr, Ne.symm hkx])]
        rw [← lookup, ih hxs]
        simp [hkx]

theorem keys_filterMap {ks : List String} {f : String → Option SNP}
    (hf : ∀ k r, f k = some r → r.rsid = k) :
    keys (ks.filterMap f) = ks.filter (fun k => (f k).isSome) := by
  induction ks with
  | nil => rfl
  | cons x xs ih =>
    rw [List.filterMap_cons, List.filter_cons]
    cases hfx : f x with
    | none => simpa [hfx] using ih
    | some r =>
      have hr : r.rsid = x := hf x r hfx
      simp only [hfx, Option.isSome_some, if_pos]
      rw [keys, List.map_cons, ← keys, ih, hr]

theorem lookup_map {t : Table} {f : SNP → SNP} (hf : ∀ r, (f r).rsid = r.rsid) (k : String) :
    lookup (t.map f) k = (lookup t k).map f := by
  induction t with
  | nil => rfl
  | cons a t ih =>
    rw [List.map_cons]
    by_cases hk : a.rsid = k
    · rw [lookup, List.find?_cons_of_pos _ (by simp [hf, hk]),
        lookup, List.find?_cons_of_pos _ (by simp [hk])]
      rfl
    · rw [lookup, List.find?_cons_of_neg _ (by simp [hf, hk]),
        lookup, List.find?_cons_of_neg _ (by simp [hk])]
      exact ih

theorem keys_map_of_rsid {t : Table} {f : SNP → SNP} (hf : ∀ r, (f r).rsid = r.rsid) :
    keys (t.map f) = keys t := by
  simp only [keys, List.map_map]
  exact List.map_congr_left (fun r _ => by simp [Function.comp_apply, hf r])

theorem charListLT_trans : ∀ {x y z : List Char}, charListLT x y = true →
    charListLT y z = true → charListLT x z = true := by
  intro x
  induction x with
  | nil =>
    intro y z h1 h2
    cases y with
    | nil => exact h2
    | cons b bs =>
      cases z with
      | nil => simp [charListLT] at h2
      | cons c cs => rfl
  | cons a as ih =>
    intro y z h1 h2
    cases y with
    | nil => simp [charListLT] at h1
    | cons b bs =>
      cases z with
      | nil => simp [charListLT] at h2
      | cons c cs =>
        simp only [charListLT, Bool.or_eq_true, Bool.and_eq_true, decide_eq_true_eq,
          beq_iff_eq] at h1 h2 ⊢
        rcases h1 with h1 | ⟨rfl, h1⟩
        · rcases h2 with h2 | ⟨rfl, h2⟩
          · exact .inl (lt_trans h1 h2)
          · exact .inl h1
        · rcases h2 with h2 | ⟨rfl, h2⟩
          · exact .inl h2
          · exact .inr ⟨rfl, ih h1 h2⟩

theorem charListLT_tri : ∀ (x y : List Char),
    charListLT x y = true ∨ x = y ∨ charListLT y x = true := by
  intro x
  induction x with
  | nil =>
    intro y
    cases y with
    | nil => exact .inr (.inl rfl)
    | cons b bs => exact .inl rfl
  | cons a as ih =>
    intro y
    cases y with
    | nil => exact .inr (.inr rfl)
    | cons b bs =>
      rcases lt_trichotomy a b with h | rfl | h
      · exact .inl (by simp [charListLT, h])
      · rcases ih bs with h' | rfl | h'
        · exact .inl (by simp [charListLT, h'])
        · exact .inr (.inl rfl)
        · exact .inr (.inr (by simp [charListLT, h']))
      · exact .inr (.inr (by simp [charListLT, h]))

theorem tokenLTb_trans : ∀ {a b c : NatToken}, tokenLTb a b = true →
    tokenLTb b c = true → tokenLTb a c = true := by
  intro a b c h1 h2
  cases a with
  | num n1 =>
    cases c with
    | alpha _ => rfl
    | num n3 =>
      cases b with
      | num n2 =>
        simp only [tokenLTb, decide_eq_true_eq] at h1 h2 ⊢
        omega
      | alpha s2 => simp [tokenLTb] at h2
  | alpha s1 =>
    cases b with
    | num n2 => simp [tokenLTb] at h1
    | alpha s2 =>
      cases c with
      | num n3 => simp [tokenLTb] at h2
      | alpha s3 =>
        simp only [tokenLTb] at h1 h2 ⊢
        exact charListLT_trans h1 h2

theorem tokenLTb_tri (a b : NatToken) : tokenLTb a b = true ∨ a = b ∨ tokenLTb b a = true := by
  cases a with
  | num n1 =>
    cases b with
    | num n2 =>
      rcases Nat.lt_trichotomy n1 n2 with h | rfl | h
      · exact .inl (by simp [tokenLTb, h])
      · exact .inr (.inl rfl)
      · exact .inr (.inr (by simp [tokenLTb, h]))
    | alpha s => exact .inl rfl
  | alpha s1 =>
    cases b with
    | num n2 => exact .inr (.inr rfl)
    | alpha s2 =>
      rcases charListLT_tri s1.toList s2.toList with h | h | h
      · exact .inl (by simpa [tokenLTb] using h)
      · refine .inr (.inl ?_)
        have hs : s1 = s2 := by
          cases s1 with
          | mk d1 =>
            cases s2 with
            | mk d2 => exact congrArg String.mk (by simpa using h)
        rw [hs]
      · exact .inr (.inr (by simpa [tokenLTb] using h))

theorem keyLE_trans : ∀ {l1 l2 l3 : List NatToken}, keyLE l1 l2 = true →
    keyLE l2 l3 = true → keyLE l1 l3 = true := by
  intro l1
  induction l1 with
  | nil => intro l2 l3 _ _; rfl
  | cons a as ih =>
    intro l2 l3 h1 h2
    cases l2 with
    | nil => simp [keyLE] at h1
    | cons b bs =>
      cases l3 with
      | nil => simp [keyLE] at h2
      | cons c cs =>
        simp only [keyLE, Bool.or_eq_true, Bool.and_eq_true, beq_iff_eq] at h1 h2 ⊢
        rcases h1 with h1 | ⟨rfl, h1⟩
        · rcases h2 with h2 | ⟨rfl, h2⟩
          · exact .inl (tokenLTb_trans h1 h2)
          · exact .inl h1
        · rcases h2 with h2 | ⟨rfl, h2⟩
          · exact .inl h2
          · exact .inr ⟨rfl, ih h1 h2⟩

theorem keyLE_total : ∀ (l1 l2 : List NatToken), keyLE l1 l2 = true ∨ keyLE l2 l1 = true := by
  intro l1
  induction l1 with
  | nil => intro l2; exact .inl rfl
  | cons a as ih =>
    intro l2
    cases l2 with
    | nil => exact .inr rfl
    | cons b bs =>
      simp only [keyLE, Bool.or_eq_true, Bool.and_eq_true, beq_iff_eq]
      rcases tokenLTb_tri a b with h | rfl | h
      · exact .inl (.inl h)
      · rcases ih bs with h | h
        · exact .inl (.inr ⟨rfl, h⟩)
        · exact .inr (.inr ⟨rfl, h⟩)
      · exact .inr (.inl h)

theorem labelLE_trans {a b c : String} (h1 : labelLE a b = true) (h2 : labelLE b c = true) :
    labelLE a c = true := keyLE_trans h1 h2

theorem labelLE_total (a b : String) : labelLE a b = true ∨ labelLE b a = true :=
  keyLE_total _ _

theorem rowLE_trans (order : List String) : ∀ x y z : SNP, rowLE order x y = true →
    rowLE order y z = true → rowLE order x z = true := by
  intro x y z
  simp only [rowLE, Bool.or_eq_true, Bool.and_eq_true, decide_eq_true_eq, beq_iff_eq]
  omega

theorem rowLE_total (order : List String) : ∀ x y : SNP,
    rowLE order x y = true ∨ rowLE order y x = true := by
  intro x y
  simp only [rowLE, Bool.or_eq_true, Bool.and_eq_true, decide_eq_true_eq, beq_iff_eq]
  omega

theorem sortSNPs_perm (t : Table) : (sortSNPs t).Perm t := sortBy_perm _ t

theorem sortSNPs_sorted (t : Table) :
    (sortSNPs t).Pairwise (fun a b => rowLE (chromOrderOf t) a b = true) :=
  sortBy_sorted (rowLE_trans _) (rowLE_total _) t

theorem lookup_sortSNPs {t : Table} (hn : (keys t).Nodup) (k : String) :
    lookup (sortSNPs t) k = lookup t k :=
  lookup_eq_of_perm (sortSNPs_perm t).symm hn k

theorem lookup_combineFirst {acc snps : Table} (ha : (keys acc).Nodup)
    (hb : (keys snps).Nodup) (k : String) :
    lookup (combineFirst acc snps) k = combineRow acc snps k := by
  unfold combineFirst
  rw [lookup_filterMap (fun k r h => combineRow_rsid h) (nodup_indexUnion ha hb)]
  by_cases hk : k ∈ indexUnion (keys acc) (keys snps)
  · rw [if_pos hk]
  · rw [if_neg hk]
    rw [mem_indexUnion] at hk
    push_neg at hk
    unfold combineRow
    rw [lookup_eq_none_iff.mpr hk.1, lookup_eq_none_iff.mpr hk.2]

theorem mem_keys_combineFirst {acc snps : Table} {k : String} :
    k ∈ keys (combineFirst acc snps) ↔ k ∈ keys acc ∨ k ∈ keys snps := by
  unfold combineFirst
  rw [keys_filterMap (fun k r h => combineRow_rsid h), List.mem_filter]
  constructor
  · rintro ⟨_, hs⟩
    exact combineRow_isSome_iff.mp hs
  · intro h
    exact ⟨mem_indexUnion.mpr h, combineRow_isSome_iff.mpr h⟩

theorem nodup_keys_combineFirst {acc snps : Table} (ha : (keys acc).Nodup)
    (hb : (keys snps).Nodup) : (keys (combineFirst acc snps)).Nodup := by
  unfold combineFirst
  rw [keys_filterMap (fun k r h => combineRow_rsid h)]
  exact (nodup_indexUnion ha hb).filter _

theorem nullDiscrepant_rsid (acc snps : Table) (r : SNP) :
    (nullDiscrepant acc snps r).rsid = r.rsid := by
  unfold nullDiscrepant
  split <;> rfl

theorem lookup_mergedTable {acc snps : Table} (ha : (keys acc).Nodup)
    (hb : (keys snps).Nodup) (k : String) :
    lookup (mergedTable acc snps) k =
      (combineRow acc snps k).map (nullDiscrepant acc snps) := by
  unfold mergedTable
  rw [lookup_map (nullDiscrepant_rsid acc snps), lookup_combineFirst ha hb]

theorem nodup_keys_mergedTable {acc snps : Table} (ha : (keys acc).Nodup)
    (hb : (keys snps).Nodup) : (keys (mergedTable acc snps)).Nodup := by
  unfold mergedTable
  rw [keys_map_of_rsid (nullDiscrepant_rsid acc snps)]
  exact nodup_keys_combineFirst ha hb

theorem eq_of_perm_of_pairwise {α : Type} {le : α → α → Prop} :
    ∀ {l1 l2 : List α}, l1.Perm l2 → l1.Pairwise le → l2.Pairwise le →
      (∀ a ∈ l1, ∀ b ∈ l1, le a b → le b a → a = b) → l1 = l2 := by
  intro l1
  induction l1 with
  | nil =>
    intro l2 hp _ _ _
    exact hp.nil_eq
  | cons a as ih =>
    intro l2 hp hs1 hs2 hanti
    cases l2 with
    | nil => exact absurd hp.symm.nil_eq (by simp)
    | cons b bs =>
      have hab : a = b := by
        have hbmem : b ∈ a :: as := hp.mem_iff.mpr (List.mem_cons_self _ _)
        have hamem : a ∈ b :: bs := hp.mem_iff.mp (List.mem_cons_self _ _)
        rcases List.mem_cons.mp hbmem with heq | hbas
        · exact heq.symm
        · rcases List.mem_cons.mp hamem with heq | habs
          · exact heq
          · exact hanti a (List.mem_cons_self _ _) b hbmem
              (List.rel_of_pairwise_cons hs1 hbas)
              (List.rel_of_pairwise_cons hs2 habs)
      subst hab
      have hperm : as.Perm bs := hp.cons_inv
      have htail : as = bs :=
        ih hperm hs1.of_cons hs2.of_cons
          (fun x hx y hy => hanti x (List.mem_cons_of_mem _ hx) y (List.mem_cons_of_mem _ hy))
      rw [htail]

theorem labelLE_antisymm_on_valid : ∀ a ∈ validChroms, ∀ b ∈ validChroms,
    labelLE a b = true → labelLE b a = true → a = b := by decide

theorem chromOrderOf_perm {t t' : Table} (hp : t.Perm t')
    (hv : ∀ r ∈ t, r.chrom ∈ validChroms) : chromOrderOf t = chromOrderOf t' := by
  unfold chromOrderOf
  have hu : (uniqueInOrder (t.map SNP.chrom)).Perm (uniqueInOrder (t'.map SNP.chrom)) := by
    apply (List.perm_ext_iff_of_nodup (nodup_uniqueInOrder _) (nodup_uniqueInOrder _)).mpr
    intro k
    rw [mem_uniqueInOrder, mem_uniqueInOrder]
    exact (hp.map SNP.chrom).mem_iff
  have hmem : ∀ a ∈ sortBy labelLE (uniqueInOrder (t.map SNP.chrom)), a ∈ validChroms := by
    intro a hma
    have : a ∈ t.map SNP.chrom :=
      mem_uniqueInOrder.mp ((sortBy_perm _ _).mem_iff.mp hma)
    rcases List.mem_map.mp this with ⟨r, hr, rfl⟩
    exact hv r hr
  have hs : sortBy labelLE (uniqueInOrder (t.map SNP.chrom)) =
      sortBy labelLE (uniqueInOrder (t'.map SNP.chrom)) := by
    apply @eq_of_perm_of_pairwise String (fun a b => labelLE a b = true) _ _
    · exact ((sortBy_perm _ _).trans hu).trans (sortBy_perm _ _).symm
    · exact @sortBy_sorted String labelLE (fun x y z h1 h2 => labelLE_trans h1 h2) labelLE_total _
    · exact @sortBy_sorted String labelLE (fun x y z h1 h2 => labelLE_trans h1 h2) labelLE_total _
    · intro x hx y hy hxy hyx
      exact labelLE_antisymm_on_valid x (hmem x hx) y (hmem y hy) hxy hyx
  rw [hs]

theorem mergeStage_abort {acc snps : Table} {g : Nat}
    (h : g ≤ (discrepantGenotypesOf acc snps).length) :
    mergeStage acc snps g = some acc := by
  unfold mergeStage
  rw [if_neg (by omega), if_pos h]

theorem mergeStage_merge {acc snps : Table} {g : Nat}
    (h : (discrepantGenotypesOf acc snps).length < g) :
    mergeStage acc snps g = some (sortSNPs (mergedTable acc snps)) := by
  unfold mergeStage
  by_cases h0 : 0 < (discrepantGenotypesOf acc snps).length
  · rw [if_pos ⟨h0, h⟩]
  · rw [if_neg (by omega), if_neg (by omega)]

theorem addSNPs_some_some (acc s : Table) (p g : Nat) :
    addSNPs (some acc) (some s) p g =
      (if 0 < (discrepantPositionsOf acc (doubleSingleAlleles s "X")).length ∧
          (discrepantPositionsOf acc (doubleSingleAlleles s "X")).length < p then
        mergeStage acc (doubleSingleAlleles s "X") g
      else if p ≤ (discrepantPositionsOf acc (doubleSingleAlleles s "X")).length then some acc
      else mergeStage acc (doubleSingleAlleles s "X") g) := rfl

theorem addSNPs_pos_abort {acc s : Table} {p g : Nat}
    (h : p ≤ (discrepantPositionsOf acc (doubleSingleAlleles s "X")).length) :
    addSNPs (some acc) (some s) p g = some acc := by
  rw [addSNPs_some_some, if_neg (by omega), if_pos h]

theorem addSNPs_pos_pass {acc s : Table} {p g : Nat}
    (h : (discrepantPositionsOf acc (doubleSingleAlleles s "X")).length < p) :
    addSNPs (some acc) (some s) p g = mergeStage acc (doubleSingleAlleles s "X") g := by
  rw [addSNPs_some_some]
  by_cases h0 : 0 < (discrepantPositionsOf acc (doubleSingleAlleles s "X")).length
  · rw [if_pos ⟨h0, h⟩]
  · rw [if_neg (by omega), if_neg (by omega)]

theorem discrepantGenotype_self (g : String) : discrepantGenotype g g = false := by
  unfold discrepantGenotype
  rcases g.toList with _ | ⟨a, _ | ⟨b, _ | ⟨c, rest⟩⟩⟩ <;> first | rfl | simp

theorem filterMap_eq_map_of {α β : Type} {l : List α} {f : α → Option β} {g : α → β}
    (h : ∀ a ∈ l, f a = some (g a)) : l.filterMap f = l.map g := by
  induction l with
  | nil => rfl
  | cons x xs ih =>
    rw [List.filterMap_cons_some (h x (List.mem_cons_self _ _)), List.map_cons,
      ih (fun a ha => h a (List.mem_cons_of_mem _ ha))]

theorem filterMap_lookup_self {t : Table} (hn : (keys t).Nodup) :
    (keys t).filterMap (lookup t) = t := by
  induction t with
  | nil => rfl
  | cons a t ih =>
    have hn' := hn
    simp only [keys, List.map_cons, List.nodup_cons, List.mem_map] at hn'
    rw [keys, List.map_cons]
    rw [List.filterMap_cons_some (by rw [lookup, List.find?_cons_of_pos _ (by simp)])]
    have hrest : (t.map SNP.rsid).filterMap (lookup (a :: t)) =
        (t.map SNP.rsid).filterMap (lookup t) := by
      apply List.filterMap_congr
      intro k hk
      rcases List.mem_map.mp hk with ⟨r, hr, rfl⟩
      rw [lookup, List.find?_cons_of_neg]
      · rfl
      · simp only [beq_iff_eq]
        intro hcontra
        exact hn'.1 ⟨r, hr, hcontra.symm⟩
    rw [hrest]
    rw [keys] at ih
    rw [ih hn'.2]

theorem mem_commonSNPs {acc snps : Table} {p : SNP × SNP} :
    p ∈ commonSNPs acc snps ↔ p.1 ∈ acc ∧ lookup snps p.1.rsid = some p.2 := by
  unfold commonSNPs
  rw [List.mem_filterMap]
  constructor
  · rintro ⟨a, ha, hmap⟩
    rcases hb : lookup snps a.rsid with _ | b
    · rw [hb] at hmap; simp at hmap
    · rw [hb] at hmap
      have hmap' : some (a, b) = some p := hmap
      injection hmap' with hmap'
      rw [← hmap']
      exact ⟨ha, hb⟩
  · rintro ⟨h1, h2⟩
    exact ⟨p.1, h1, by rw [h2]; rfl⟩

theorem mem_discrepantGenotypesOf {acc snps : Table} {p : SNP × SNP}
    (h : p ∈ discrepantGenotypesOf acc snps) :
    p ∈ commonSNPs acc snps ∧ p.1.genotype.isSome ∧ p.2.genotype.isSome := by
  unfold discrepantGenotypesOf at h
  have h1 := List.mem_filter.mp h
  unfold bothGenotypesPresent at h1
  have h2 := List.mem_filter.mp h1.1
  have hb := h2.2
  rw [Bool.and_eq_true] at hb
  exact ⟨h2.1, hb.1, hb.2⟩

theorem discrepantKeys_mem_keys {acc snps : Table} {k : String}
    (h : k ∈ discrepantKeys (discrepantGenotypesOf acc snps)) :
    k ∈ keys acc ∧ k ∈ keys snps := by
  unfold discrepantKeys at h
  rcases List.mem_map.mp h with ⟨p, hp, rfl⟩
  rcases mem_discrepantGenotypesOf hp with ⟨hc, _, _⟩
  rcases mem_commonSNPs.mp hc with ⟨h1, h2⟩
  constructor
  · exact List.mem_map.mpr ⟨p.1, h1, rfl⟩
  · rw [← lookup_isSome_iff, h2]
    rfl

theorem discrepantGenotype_iff (s1 s2 : String) :
    discrepantGenotype s1 s2 = true ↔
      ((s1.length = 1 ∧ s2.length = 1 ∧ s1 ≠ s2) ∨
       (s1.length = 2 ∧ s2.length = 2 ∧ s1.toList ≠ s2.toList ∧
        s1.toList ≠ s2.toList.reverse)) := by
  cases s1 with
  | mk d1 =>
    cases s2 with
    | mk d2 =>
      rcases d1 with _ | ⟨a1, _ | ⟨a2, _ | ⟨a3, t1⟩⟩⟩ <;>
        rcases d2 with _ | ⟨b1, _ | ⟨b2, _ | ⟨b3, t2⟩⟩⟩ <;>
        simp [discrepantGenotype, String.length, String.toList, String.ext_iff] <;>
        (first
          | omega
          | tauto)

theorem doubleSingleAlleles_idem (t : Table) (c : String) :
    doubleSingleAlleles (doubleSingleAlleles t c) c = doubleSingleAlleles t c := by
  unfold doubleSingleAlleles
  rw [List.map_map]
  apply List.map_congr_left
  intro r _
  simp only [Function.comp_apply]
  by_cases h : (r.chrom == c && r.genotype.map String.length == some 1) = true
  · rw [if_pos h]
    rw [if_neg]
    rcases hg : r.genotype with _ | g
    · rw [hg] at h
      simp at h
    · rw [hg] at h
      simp only [Bool.and_eq_true, beq_iff_eq, Option.map_some'] at h
      have hlen : g.length = 1 := by
        have := h.2
        injection this
      simp [hg, String.length_append, hlen]
  · rw [if_neg h, if_neg h]

/-- C1: a merge into an existing accumulated table whose
position-discrepancy count reaches `posThreshold`, or which passes the
position gate but whose genotype-discrepancy count reaches
`genoThreshold`, is aborted: `_add_snps` returns the accumulated table
exactly as it was (no rows added, modified or re-sorted, and no
exception since the function is total), and the remaining files of the
batch are still processed from that unchanged state. -/
theorem threshold_abort_preserves_table (acc cand : Table) (rest : List (Option Table))
    (posT genoT : Nat)
    (h : posT ≤ (discrepantPositionsOf acc (doubleSingleAlleles cand "X")).length ∨
      ((discrepantPositionsOf acc (doubleSingleAlleles cand "X")).length < posT ∧
       genoT ≤ (discrepantGenotypesOf acc (doubleSingleAlleles cand "X")).length)) :
    addSNPs (some acc) (some cand) posT genoT = some acc ∧
    addAll (some acc) (some cand :: rest) posT genoT = addAll (some acc) rest posT genoT := by
  have habort : addSNPs (some acc) (some cand) posT genoT = some acc := by
    rcases h with h | ⟨h1, h2⟩
    · exact addSNPs_pos_abort h
    · rw [addSNPs_pos_pass h1]
      exact mergeStage_abort h2
  refine ⟨habort, ?_⟩
  unfold addAll
  simp only [List.foldl_cons]
  rw [habort]

/-- Witness for C1: a 2-row table whose candidate differs in both
positions, with `posThreshold = 1`, is rejected and the accumulated
table survives unchanged. -/
theorem threshold_abort_preserves_table_witness :
    addSNPs (some (basePosTable 2)) (some (posShiftTable 2 2)) 1 10000 =
      some (basePosTable 2) :=
  (threshold_abort_preserves_table (basePosTable 2) (posShiftTable 2 2) [] 1 10000
    (Or.inl (by decide))).1

/-- C3: a pair of genotypes at a common key is discrepant exactly when
both have length 1 with different characters, or both have length 2 and
neither the direct nor the swapped allele pairing matches; a key with a
null genotype on either side is never selected as discrepant, a
mixed-length pair (one of length 1, one of length 2) is never
discrepant, and `AG` versus `GA` is never discrepant. -/
theorem genotype_discrepancy_classification :
    (∀ s1 s2 : String, discrepantGenotype s1 s2 = true ↔
      ((s1.length = 1 ∧ s2.length = 1 ∧ s1 ≠ s2) ∨
       (s1.length = 2 ∧ s2.length = 2 ∧ s1.toList ≠ s2.toList ∧
        s1.toList ≠ s2.toList.reverse))) ∧
    (∀ acc cand : Table, ∀ p ∈ discrepantGenotypesOf acc cand,
      p.1.genotype ≠ none ∧ p.2.genotype ≠ none) ∧
    (∀ s1 s2 : String, s1.length = 1 → s2.length = 2 → discrepantGenotype s1 s2 = false) ∧
    discrepantGenotype "AG" "GA" = false := by
  refine ⟨discrepantGenotype_iff, ?_, ?_, by decide⟩
  · intro acc cand p hp
    rcases mem_discrepantGenotypesOf hp with ⟨_, h1, h2⟩
    constructor
    · intro hc; rw [hc] at h1; exact absurd h1 (by decide)
    · intro hc; rw [hc] at h2; exact absurd h2 (by decide)
  · intro s1 s2 h1 h2
    by_contra hc
    rw [Bool.not_eq_false] at hc
    rcases (discrepantGenotype_iff s1 s2).mp hc with ⟨_, hl, _⟩ | ⟨hl, _, _⟩
    · omega
    · omega

/-- Witness for C3: a mixed-length pair is not discrepant. -/
theorem genotype_discrepancy_classification_witness :
    discrepantGenotype "A" "AA" = false :=
  genotype_discrepancy_classification.2.2.1 "A" "AA" rfl rfl

/-- C5: `_double_single_alleles(snps, 'X')` replaces the genotype of
every row on chromosome `X` whose genotype is a single character by that
character doubled, leaves every other row (and every chromosome and
position) unchanged, and is applied to the candidate inside `_add_snps`
before any merge logic; consequently, on tables whose genotypes all have
length 1 or 2, every `X`-row with a non-null genotype ends up with a
two-character genotype. -/
theorem hemizygous_normalization :
    (∀ (t : Table) (i : Nat) (r : SNP), t[i]? = some r →
      r.chrom = "X" → ∀ g, r.genotype = some g → g.length = 1 →
      (doubleSingleAlleles t "X")[i]? = some { r with genotype := some (g ++ g) }) ∧
    (∀ (t : Table) (i : Nat) (r : SNP), t[i]? = some r →
      ¬(r.chrom = "X" ∧ ∃ g, r.genotype = some g ∧ g.length = 1) →
      (doubleSingleAlleles t "X")[i]? = some r) ∧
    (∀ t : Table, (∀ r ∈ t, ∀ g, r.genotype = some g → g.length = 1 ∨ g.length = 2) →
      ∀ r ∈ doubleSingleAlleles t "X", r.chrom = "X" → ∀ g, r.genotype = some g →
        g.length = 2) ∧
    (∀ (accOpt : Option Table) (t : Table) (posT genoT : Nat),
      addSNPs accOpt (some t) posT genoT =
        addSNPs accOpt (some (doubleSingleAlleles t "X")) posT genoT) := by
  refine ⟨?_, ?_, ?_, ?_⟩
  · intro t i r ht hchrom g hg hlen
    unfold doubleSingleAlleles
    rw [List.getElem?_map, ht]
    simp only [Option.map_some']
    rw [if_pos (by simp [hchrom, hg, hlen])]
    rw [hg]
    rfl
  · intro t i r ht hcond
    unfold doubleSingleAlleles
    rw [List.getElem?_map, ht]
    simp only [Option.map_some']
    rw [if_neg]
    intro hb
    rw [Bool.and_eq_true, beq_iff_eq, beq_iff_eq] at hb
    rcases hg : r.genotype with _ | g
    · rw [hg] at hb
      simp at hb
    · rw [hg] at hb
      refine hcond ⟨hb.1, g, hg, ?_⟩
      have := hb.2
      injection this
  · intro t hlens r' hr' hchrom g' hg'
    unfold doubleSingleAlleles at hr'
    rcases List.mem_map.mp hr' with ⟨r, hr, heq⟩
    by_cases hb : (r.chrom == "X" && r.genotype.map String.length == some 1) = true
    · rw [if_pos hb] at heq
      rw [Bool.and_eq_true, beq_iff_eq, beq_iff_eq] at hb
      rcases hgr : r.genotype with _ | g
      · rw [hgr] at hb
        simp at hb
      · have hlen : g.length = 1 := by
          rw [hgr] at hb
          have := hb.2
          simp only [Option.map_some'] at this
          injection this
        rw [← heq] at hg'
        simp only [hgr, Option.map_some'] at hg'
        injection hg' with hg'
        rw [← hg', String.length_append]
        omega
    · rw [if_neg hb] at heq
      subst heq
      rcases hlens r hr g' hg' with h1 | h2
      · exfalso
        apply hb
        rw [Bool.and_eq_true, beq_iff_eq, beq_iff_eq]
        exact ⟨hchrom, by rw [hg']; simp [h1]⟩
      · exact h2
  · intro accOpt t posT genoT
    cases accOpt with
    | none =>
      show some (sortSNPs (doubleSingleAlleles t "X")) =
        some (sortSNPs (doubleSingleAlleles (doubleSingleAlleles t "X") "X"))
      rw [doubleSingleAlleles_idem]
    | some acc =>
      rw [addSNPs_some_some, addSNPs_some_some, doubleSingleAlleles_idem]

/-- Witness for C5: a single `A` call on chromosome `X` becomes `AA`. -/
theorem hemizygous_normalization_witness :
    (doubleSingleAlleles [{ rsid := "rs1", chrom := "X", pos := 1, genotype := some "A" }]
      "X")[0]? = some { rsid := "rs1", chrom := "X", pos := 1, genotype := some "AA" } :=
  hemizygous_normalization.1
    [{ rsid := "rs1", chrom := "X", pos := 1, genotype := some "A" }] 0
    { rsid := "rs1", chrom := "X", pos := 1, genotype := some "A" } rfl rfl "A" rfl rfl

/-- C9: `load_snps` raises exactly when its argument is neither a single
path string nor a list of path strings; for a valid argument the load
never raises, a file whose read yields no table (missing, unrecognized,
or failed parse) contributes nothing to the accumulated table, and the
remaining files of a batch are still processed. -/
theorem load_error_iff_invalid_argument :
    (∀ (st : Option Table) (readRaw : String → Option Table) (raw : RawData)
       (posT genoT : Nat),
      (∃ e, load_snps st readRaw raw posT genoT = Except.error e) ↔ raw = RawData.invalid) ∧
    (∀ (st : Option Table) (readRaw : String → Option Table) (f : String)
       (files : List String) (posT genoT : Nat), readRaw f = none →
      load_snps st readRaw (RawData.multiple (f :: files)) posT genoT =
        load_snps st readRaw (RawData.multiple files) posT genoT) ∧
    (∀ (st : Option Table) (readRaw : String → Option Table) (f : String)
       (posT genoT : Nat), readRaw f = none →
      load_snps st readRaw (RawData.single f) posT genoT = Except.ok st) := by
  refine ⟨?_, ?_, ?_⟩
  · intro st readRaw raw posT genoT
    cases raw with
    | single f =>
      simp only [load_snps]
      constructor
      · rintro ⟨e, he⟩; exact absurd he (by simp)
      · intro h; exact absurd h (by simp)
    | multiple files =>
      simp only [load_snps]
      constructor
      · rintro ⟨e, he⟩; exact absurd he (by simp)
      · intro h; exact absurd h (by simp)
    | invalid => simp [load_snps]
  · intro st readRaw f files posT genoT hf
    simp only [load_snps, addAll, List.map_cons, List.foldl_cons]
    rw [hf]
    rfl
  · intro st readRaw f posT genoT hf
    simp only [load_snps]
    rw [hf]
    rfl

/-- Witness for C9: a batch starting with an unreadable file loads the
same as the batch without it. -/
theorem load_error_iff_invalid_argument_witness :
    load_snps none (fun _ => none) (RawData.multiple ["bad.txt", "b.txt"]) 100 10000 =
      load_snps none (fun _ => none) (RawData.multiple ["b.txt"]) 100 10000 :=
  load_error_iff_invalid_argument.2.1 none (fun _ => none) "bad.txt" ["b.txt"] 100 10000 rfl

/-- C10: a fresh individual, or one all of whose file reads yielded no
table, has a null `snps` property (not an empty table); once a table is
owned, the property returns a (value-equal) copy of it, never null. -/
theorem snps_accessor_behavior :
    snpsAccessor initialSnps = none ∧
    (∀ (readRaw : String → Option Table) (files : List String) (posT genoT : Nat),
      (∀ f ∈ files, readRaw f = none) →
      load_snps initialSnps readRaw (RawData.multiple files) posT genoT = Except.ok none) ∧
    (∀ t : Table, snpsAccessor (some t) = some t ∧ snpsAccessor (some t) ≠ none) := by
  refine ⟨rfl, ?_, ?_⟩
  · intro readRaw files posT genoT hall
    simp only [load_snps]
    suffices h : addAll initialSnps (files.map readRaw) posT genoT = none by rw [h]
    induction files with
    | nil => rfl
    | cons f fs ih =>
      simp only [addAll, List.map_cons, List.foldl_cons]
      rw [hall f (List.mem_cons_self _ _)]
      exact ih (fun x hx => hall x (List.mem_cons_of_mem _ hx))
  · intro t
    constructor
    · simp [snpsAccessor]
    · simp [snpsAccessor]

/-- Witness for C10: an individual whose two files both fail to read
still exposes a null table. -/
theorem snps_accessor_behavior_witness :
    load_snps initialSnps (fun _ => none) (RawData.multiple ["a.txt", "b.txt"]) 100 10000 =
      Except.ok none :=
  snps_accessor_behavior.2.1 (fun _ => none) ["a.txt", "b.txt"] 100 10000
    (by intro f _; rfl)

theorem nullDiscrepant_chrom_pos (acc snps : Table) (r : SNP) :
    (nullDiscrepant acc snps r).chrom = r.chrom ∧ (nullDiscrepant acc snps r).pos = r.pos := by
  unfold nullDiscrepant
  split <;> exact ⟨rfl, rfl⟩

theorem lookup_after_merge {acc snps : Table} (ha : (keys acc).Nodup)
    (hb : (keys snps).Nodup) {p : SNP × SNP}
    (hp : p ∈ commonSNPs acc snps) {T : Table} {genoT : Nat}
    (hT : mergeStage acc snps genoT = some T) :
    ∃ r, lookup T p.1.rsid = some r ∧ r.chrom = p.1.chrom ∧ r.pos = p.1.pos := by
  rcases mem_commonSNPs.mp hp with ⟨hmem, hsnps⟩
  have hacc : lookup acc p.1.rsid = some p.1 := (lookup_eq_some_iff ha).mpr ⟨hmem, rfl⟩
  by_cases hg : genoT ≤ (discrepantGenotypesOf acc snps).length
  · rw [mergeStage_abort hg] at hT
    injection hT with hT
    subst hT
    exact ⟨p.1, hacc, rfl, rfl⟩
  · push_neg at hg
    rw [mergeStage_merge hg] at hT
    injection hT with hT
    subst hT
    rw [lookup_sortSNPs (nodup_keys_mergedTable ha hb), lookup_mergedTable ha hb]
    have hrow : combineRow acc snps p.1.rsid =
        some { rsid := p.1.rsid, chrom := p.1.chrom, pos := p.1.pos,
               genotype := p.1.genotype.or p.2.genotype } := by
      unfold combineRow
      rw [hacc, hsnps]
    rw [hrow]
    refine ⟨_, rfl, ?_, ?_⟩
    · exact (nullDiscrepant_chrom_pos acc snps _).1
    · exact (nullDiscrepant_chrom_pos acc snps _).2

theorem mergedTable_of_no_discrepancy {acc snps : Table}
    (h : discrepantGenotypesOf acc snps = []) :
    mergedTable acc snps = combineFirst acc snps := by
  unfold mergedTable nullDiscrepant
  rw [h]
  simp only [discrepantKeys, List.map_nil, List.contains_nil, Bool.false_eq_true, if_false]
  exact List.map_id' _

theorem commonSNPs_eq_self_pairs {T1 t' : Table} (hp : T1.Perm t') (hn : (keys t').Nodup) :
    commonSNPs T1 t' = T1.map (fun a => (a, a)) := by
  unfold commonSNPs
  apply filterMap_eq_map_of
  intro a ha
  rw [(lookup_eq_some_iff hn).mpr ⟨hp.mem_iff.mp ha, rfl⟩]
  rfl

theorem discrepantPositionsOf_eq_nil_of_compat {acc snps : Table}
    (h : ∀ p ∈ commonSNPs acc snps, p.1.chrom = p.2.chrom ∧ p.1.pos = p.2.pos) :
    discrepantPositionsOf acc snps = [] := by
  unfold discrepantPositionsOf
  rw [List.filter_eq_nil_iff]
  intro p hp
  rcases h p hp with ⟨h1, h2⟩
  simp [h1, h2]

theorem discrepantGenotypesOf_eq_nil_of_compat {acc snps : Table}
    (h : ∀ p ∈ commonSNPs acc snps,
      p.1.genotype = p.2.genotype ∨ p.1.genotype = none ∨ p.2.genotype = none) :
    discrepantGenotypesOf acc snps = [] := by
  unfold discrepantGenotypesOf bothGenotypesPresent
  rw [List.filter_eq_nil_iff]
  intro p hp
  have hpc := (List.mem_filter.mp hp).1
  have hps := (List.mem_filter.mp hp).2
  rw [Bool.and_eq_true] at hps
  rcases h p hpc with heq | hn1 | hn2
  · rcases hg1 : p.1.genotype with _ | g1
    · simp [hg1]
    · rw [heq] at hg1
      simp [hg1, heq, discrepantGenotype_self]
  · rw [hn1] at hps
    exact absurd hps.1 (by decide)
  · rw [hn2] at hps
    exact absurd hps.2 (by decide)

/-- C2: when the position-discrepancy count `D_p` satisfies
`0 < D_p < posThreshold`, the merge passes the position gate (control
reaches the genotype stage), and whatever table results keeps the
accumulated table's chromosome and position at every position-discrepant
key, the candidate's differing values being discarded; at
`posThreshold = 100`, exactly 99 discrepant positions still merges and
keeps the original positions, while exactly 100 aborts and leaves the
accumulated table unchanged. -/
theorem position_discrepancy_below_threshold (acc cand : Table) (posT genoT : Nat)
    (ha : (keys acc).Nodup)
    (h0 : 0 < (discrepantPositionsOf acc (doubleSingleAlleles cand "X")).length)
    (h1 : (discrepantPositionsOf acc (doubleSingleAlleles cand "X")).length < posT) :
    (addSNPs (some acc) (some cand) posT genoT =
       mergeStage acc (doubleSingleAlleles cand "X") genoT) ∧
    ((keys cand).Nodup →
      ∀ p ∈ discrepantPositionsOf acc (doubleSingleAlleles cand "X"),
      ∀ T, addSNPs (some acc) (some cand) posT genoT = some T →
      ∃ r, lookup T p.1.rsid = some r ∧ r.chrom = p.1.chrom ∧ r.pos = p.1.pos) ∧
    ((discrepantPositionsOf (basePosTable 100)
        (doubleSingleAlleles (posShiftTable 100 99) "X")).length = 99 ∧
     lookup ((addSNPs (some (basePosTable 100)) (some (posShiftTable 100 99)) 100 10000).getD [])
       (rsName 0) = some { rsid := rsName 0, chrom := "1", pos := 0, genotype := none }) ∧
    ((discrepantPositionsOf (basePosTable 100)
        (doubleSingleAlleles (posShiftTable 100 100) "X")).length = 100 ∧
     addSNPs (some (basePosTable 100)) (some (posShiftTable 100 100)) 100 10000 =
       some (basePosTable 100)) := by
  refine ⟨addSNPs_pos_pass h1, ?_, by decide, by decide⟩
  intro hcand p hp T hT
  have hb : (keys (doubleSingleAlleles cand "X")).Nodup := by
    rw [keys_doubleSingleAlleles]
    exact hcand
  rw [addSNPs_pos_pass h1] at hT
  have hpc : p ∈ commonSNPs acc (doubleSingleAlleles cand "X") := by
    unfold discrepantPositionsOf at hp
    exact (List.mem_filter.mp hp).1
  exact lookup_after_merge ha hb hpc hT

/-- Witness for C2: one discrepant position out of two common keys, with
the default thresholds, passes the position gate. -/
theorem position_discrepancy_below_threshold_witness :
    addSNPs (some (basePosTable 2)) (some (posShiftTable 2 1)) 100 10000 =
      mergeStage (basePosTable 2) (doubleSingleAlleles (posShiftTable 2 1) "X") 10000 :=
  (position_discrepancy_below_threshold (basePosTable 2) (posShiftTable 2 1) 100 10000
    (by decide) (by decide) (by decide)).1

/-- C4: a non-aborted merge produces a table with one record per rsid
whose key set is the union of the two key sets; keys unique to the
accumulated table keep their row, keys unique to the (normalized)
candidate are added as-is, and at common keys the accumulated row's
chromosome, position and non-null values are kept (null genotypes are
filled from the candidate) except that genotype-discrepant keys are set
to null.  `pos` stays an integer throughout this embedding (the
`astype(np.int64)` re-coercion is the identity here). -/
theorem merge_result_characterization (acc cand : Table) (posT genoT : Nat)
    (ha : (keys acc).Nodup) (hc : (keys cand).Nodup)
    (hpos : (discrepantPositionsOf acc (doubleSingleAlleles cand "X")).length < posT)
    (hgen : (discrepantGenotypesOf acc (doubleSingleAlleles cand "X")).length < genoT) :
    ∃ T, addSNPs (some acc) (some cand) posT genoT = some T ∧
      (keys T).Nodup ∧
      (∀ k, k ∈ keys T ↔ k ∈ keys acc ∨ k ∈ keys (doubleSingleAlleles cand "X")) ∧
      (∀ k, lookup T k =
        match lookup acc k, lookup (doubleSingleAlleles cand "X") k with
        | some a, some c =>
            some { rsid := k
                   chrom := a.chrom
                   pos := a.pos
                   genotype := if k ∈ discrepantKeys (discrepantGenotypesOf acc
                       (doubleSingleAlleles cand "X")) then none
                     else a.genotype.or c.genotype }
        | some a, none => some a
        | none, some c => some c
        | none, none => none) := by
  have hb : (keys (doubleSingleAlleles cand "X")).Nodup := by
    rw [keys_doubleSingleAlleles]
    exact hc
  have hmerge : addSNPs (some acc) (some cand) posT genoT =
      some (sortSNPs (mergedTable acc (doubleSingleAlleles cand "X"))) := by
    rw [addSNPs_pos_pass hpos, mergeStage_merge hgen]
  refine ⟨_, hmerge, ?_, ?_, ?_⟩
  · exact ((keys_perm (sortSNPs_perm _)).nodup_iff).mpr (nodup_keys_mergedTable ha hb)
  · intro k
    rw [(keys_perm (sortSNPs_perm _)).mem_iff]
    unfold mergedTable
    rw [keys_map_of_rsid (nullDiscrepant_rsid _ _)]
    exact mem_keys_combineFirst
  · intro k
    rw [lookup_sortSNPs (nodup_keys_mergedTable ha hb), lookup_mergedTable ha hb]
    cases hka : lookup acc k with
    | some a =>
      cases hkc : lookup (doubleSingleAlleles cand "X") k with
      | some c =>
        have hrow : combineRow acc (doubleSingleAlleles cand "X") k =
            some { rsid := k, chrom := a.chrom, pos := a.pos,
                   genotype := a.genotype.or c.genotype } := by
          unfold combineRow
          rw [hka, hkc]
        rw [hrow]
        simp only [Option.map_some']
        unfold nullDiscrepant
        by_cases hk : k ∈ discrepantKeys (discrepantGenotypesOf acc
            (doubleSingleAlleles cand "X"))
        · rw [if_pos (by simpa [List.elem_iff] using hk), if_pos hk]
        · rw [if_neg (by simpa [List.elem_iff] using hk), if_neg hk]
      | none =>
        have hrow : combineRow acc (doubleSingleAlleles cand "X") k = some a := by
          unfold combineRow
          rw [hka, hkc]
        rw [hrow]
        simp only [Option.map_some']
        unfold nullDiscrepant
        rw [if_neg]
        intro hk
        have hk' : a.rsid ∈ discrepantKeys (discrepantGenotypesOf acc
            (doubleSingleAlleles cand "X")) := by simpa [List.elem_iff] using hk
        have := (discrepantKeys_mem_keys hk').2
        rw [lookup_rsid hka, ← lookup_isSome_iff, hkc] at this
        exact absurd this (by decide)
    | none =>
        cases hkc : lookup (doubleSingleAlleles cand "X") k with
        | some c =>
          have hrow : combineRow acc (doubleSingleAlleles cand "X") k = some c := by
            unfold combineRow
            rw [hka, hkc]
          rw [hrow]
          simp only [Option.map_some']
          unfold nullDiscrepant
          rw [if_neg]
          intro hk
          have hk' : c.rsid ∈ discrepantKeys (discrepantGenotypesOf acc
              (doubleSingleAlleles cand "X")) := by simpa [List.elem_iff] using hk
          have := (discrepantKeys_mem_keys hk').1
          rw [lookup_rsid hkc, ← lookup_isSome_iff, hka] at this
          exact absurd this (by decide)
        | none =>
          have hrow : combineRow acc (doubleSingleAlleles cand "X") k = none := by
            unfold combineRow
            rw [hka, hkc]
          rw [hrow]
          rfl

theorem addSNPs_adopt (s : Table) (p g : Nat) :
    addSNPs none (some s) p g = some (sortSNPs (doubleSingleAlleles s "X")) := rfl

theorem sortSNPs_sorted_self {u : Table} (hv : ∀ r ∈ sortSNPs u, r.chrom ∈ validChroms) :
    (sortSNPs u).Pairwise (fun a b => rowLE (chromOrderOf (sortSNPs u)) a b = true) := by
  have heq : chromOrderOf (sortSNPs u) = chromOrderOf u :=
    chromOrderOf_perm (sortSNPs_perm u) hv
  rw [heq]
  exact sortSNPs_sorted u

/-- Witness for C4 on a one-row accumulated table and a disjoint one-row
candidate with the default thresholds. -/
theorem merge_result_characterization_witness :
    ∃ T, addSNPs (some (basePosTable 1)) (some (posShiftTable 2 0)) 100 10000 = some T ∧
      (keys T).Nodup ∧
      (∀ k, k ∈ keys T ↔ k ∈ keys (basePosTable 1) ∨
        k ∈ keys (doubleSingleAlleles (posShiftTable 2 0) "X")) ∧
      (∀ k, lookup T k =
        match lookup (basePosTable 1) k, lookup (doubleSingleAlleles (posShiftTable 2 0) "X") k with
        | some a, some c =>
            some { rsid := k
                   chrom := a.chrom
                   pos := a.pos
                   genotype := if k ∈ discrepantKeys (discrepantGenotypesOf (basePosTable 1)
                       (doubleSingleAlleles (posShiftTable 2 0) "X")) then none
                     else a.genotype.or c.genotype }
        | some a, none => some a
        | none, some c => some c
        | none, none => none) :=
  merge_result_characterization (basePosTable 1) (posShiftTable 2 0) 100 10000
    (by decide) (by decide) (by decide) (by decide)

/-- C6: every accumulated table reachable by a sequence of loads (with
chromosome labels drawn from the data model's label set) is sorted by
(chromosome rank ascending, position ascending), where the rank is the
position of the label in the ordered category list built by
`_sort_snps` (natural sort with `PAR` then `MT` forced last); aborted
merges leave the previous, already sorted, table in place.  On the
spec's example labels `["2","1","10","X","MT","PAR"]` the computed rank
order is `[1,2,10,X,PAR,MT]`. -/
theorem canonical_sort_invariant :
    (∀ (tables : List (Option Table)) (posT genoT : Nat) (T : Table),
      addAll none tables posT genoT = some T →
      (∀ r ∈ T, r.chrom ∈ validChroms) →
      T.Pairwise (fun a b => rowLE (chromOrderOf T) a b = true)) ∧
    chromOrderOf chromExampleTable = ["1", "2", "10", "X", "PAR", "MT"] := by
  refine ⟨?_, by decide⟩
  intro tables
  induction tables using List.reverseRecOn with
  | nil =>
    intro posT genoT T hT hv
    simp [addAll] at hT
  | append_singleton ts t ih =>
    intro posT genoT T hT hv
    rw [addAll, List.foldl_append, List.foldl_cons, List.foldl_nil] at hT
    cases t with
    | none => exact ih posT genoT T hT hv
    | some cand =>
      cases hst : addAll none ts posT genoT with
      | none =>
        rw [addAll] at hst
        rw [hst, addSNPs_adopt] at hT
        injection hT with hT
        subst hT
        exact sortSNPs_sorted_self hv
      | some acc =>
        rw [addAll] at hst
        rw [hst] at hT
        by_cases hpos : posT ≤ (discrepantPositionsOf acc (doubleSingleAlleles cand "X")).length
        · rw [addSNPs_pos_abort hpos] at hT
          injection hT with hT
          subst hT
          exact ih posT genoT acc (by rw [addAll, hst]) hv
        · push_neg at hpos
          rw [addSNPs_pos_pass hpos] at hT
          by_cases hgen : genoT ≤
              (discrepantGenotypesOf acc (doubleSingleAlleles cand "X")).length
          · rw [mergeStage_abort hgen] at hT
            injection hT with hT
            subst hT
            exact ih posT genoT acc (by rw [addAll, hst]) hv
          · push_neg at hgen
            rw [mergeStage_merge hgen] at hT
            injection hT with hT
            subst hT
            exact sortSNPs_sorted_self hv

/-- Witness for C6: a two-row load comes out position-sorted. -/
theorem canonical_sort_invariant_witness :
    ([{ rsid := "rs2", chrom := "1", pos := 1, genotype := none },
      { rsid := "rs1", chrom := "1", pos := 2, genotype := none }] : Table).Pairwise
      (fun a b =>
        rowLE (chromOrderOf
          [{ rsid := "rs2", chrom := "1", pos := 1, genotype := none },
           { rsid := "rs1", chrom := "1", pos := 2, genotype := none }]) a b = true) :=
  canonical_sort_invariant.1
    [some [{ rsid := "rs1", chrom := "1", pos := 2, genotype := none },
           { rsid := "rs2", chrom := "1", pos := 1, genotype := none }]]
    100 10000
    [{ rsid := "rs2", chrom := "1", pos := 1, genotype := none },
     { rsid := "rs1", chrom := "1", pos := 2, genotype := none }]
    (by decide) (by decide)

/-- C7: reconciling a table (with unique rsids) into an accumulated
table holding exactly that data is idempotent: the second `_add_snps`
succeeds and returns the same accumulated table as a keyed mapping (the
same rows up to permutation, with identical per-rsid lookups). -/
theorem reconcile_idempotent (t : Table) (posT genoT : Nat) (hn : (keys t).Nodup) :
    ∃ T1, addSNPs none (some t) posT genoT = some T1 ∧
      ∃ T2, addSNPs (some T1) (some t) posT genoT = some T2 ∧
        T2.Perm T1 ∧ ∀ k, lookup T2 k = lookup T1 k := by
  refine ⟨sortSNPs (doubleSingleAlleles t "X"), rfl, ?_⟩
  have hnt' : (keys (doubleSingleAlleles t "X")).Nodup := by
    rw [keys_doubleSingleAlleles]
    exact hn
  have hperm : (sortSNPs (doubleSingleAlleles t "X")).Perm (doubleSingleAlleles t "X") :=
    sortSNPs_perm _
  have hnT1 : (keys (sortSNPs (doubleSingleAlleles t "X"))).Nodup :=
    ((keys_perm hperm).nodup_iff).mpr hnt'
  have hcommon := commonSNPs_eq_self_pairs hperm hnt'
  have hdp : discrepantPositionsOf (sortSNPs (doubleSingleAlleles t "X"))
      (doubleSingleAlleles t "X") = [] := by
    apply discrepantPositionsOf_eq_nil_of_compat
    intro p hp
    rw [hcommon] at hp
    rcases List.mem_map.mp hp with ⟨a, _, rfl⟩
    exact ⟨rfl, rfl⟩
  have hdg : discrepantGenotypesOf (sortSNPs (doubleSingleAlleles t "X"))
      (doubleSingleAlleles t "X") = [] := by
    apply discrepantGenotypesOf_eq_nil_of_compat
    intro p hp
    rw [hcommon] at hp
    rcases List.mem_map.mp hp with ⟨a, _, rfl⟩
    exact .inl rfl
  by_cases hp0 : posT = 0
  · subst hp0
    exact ⟨_, addSNPs_pos_abort (Nat.zero_le _), List.Perm.refl _, fun k => rfl⟩
  · have hpass : (discrepantPositionsOf (sortSNPs (doubleSingleAlleles t "X"))
        (doubleSingleAlleles t "X")).length < posT := by
      rw [hdp]
      simpa using Nat.pos_of_ne_zero hp0
    by_cases hg0 : genoT = 0
    · subst hg0
      refine ⟨_, ?_, List.Perm.refl _, fun k => rfl⟩
      rw [addSNPs_pos_pass hpass]
      exact mergeStage_abort (Nat.zero_le _)
    · have hgpass : (discrepantGenotypesOf (sortSNPs (doubleSingleAlleles t "X"))
          (doubleSingleAlleles t "X")).length < genoT := by
        rw [hdg]
        simpa using Nat.pos_of_ne_zero hg0
      have hlook : ∀ k, combineRow (sortSNPs (doubleSingleAlleles t "X"))
          (doubleSingleAlleles t "X") k = lookup (sortSNPs (doubleSingleAlleles t "X")) k := by
        intro k
        cases hka : lookup (sortSNPs (doubleSingleAlleles t "X")) k with
        | some a =>
          have ha' : lookup (doubleSingleAlleles t "X") k = some a := by
            rw [lookup_eq_some_iff hnt']
            have := (lookup_eq_some_iff hnT1).mp hka
            exact ⟨hperm.mem_iff.mp this.1, this.2⟩
          unfold combineRow
          rw [hka, ha']
          show some { rsid := k
                      chrom := a.chrom
                      pos := a.pos
                      genotype := a.genotype.or a.genotype } = some a
          rw [Option.or_self]
          have hrs : a.rsid = k := lookup_rsid hka
          rw [← hrs]
        | none =>
          have ha' : lookup (doubleSingleAlleles t "X") k = none := by
            rw [lookup_eq_none_iff] at hka ⊢
            intro hk
            exact hka (((keys_perm hperm).mem_iff).mpr hk)
          unfold combineRow
          rw [hka, ha']
      have hUperm : (indexUnion (keys (sortSNPs (doubleSingleAlleles t "X")))
          (keys (doubleSingleAlleles t "X"))).Perm
            (keys (sortSNPs (doubleSingleAlleles t "X"))) := by
        unfold indexUnion
        split
        · exact List.Perm.refl _
        · have hfilter : (keys (doubleSingleAlleles t "X")).filter
              (fun k => !((keys (sortSNPs (doubleSingleAlleles t "X"))).contains k)) = [] := by
            rw [List.filter_eq_nil_iff]
            intro k hk
            simp only [Bool.not_eq_eq_eq_not, Bool.not_true, List.elem_eq_mem,
              decide_eq_false_iff_not, Decidable.not_not]
            exact ((keys_perm hperm).mem_iff).mpr hk
          rw [hfilter, List.append_nil]
          exact sortBy_perm _ _
      have hmt : mergedTable (sortSNPs (doubleSingleAlleles t "X"))
          (doubleSingleAlleles t "X") = combineFirst (sortSNPs (doubleSingleAlleles t "X"))
            (doubleSingleAlleles t "X") := mergedTable_of_no_discrepancy hdg
      have hmperm : (combineFirst (sortSNPs (doubleSingleAlleles t "X"))
          (doubleSingleAlleles t "X")).Perm (sortSNPs (doubleSingleAlleles t "X")) := by
        unfold combineFirst
        rw [List.filterMap_congr (fun k _ => hlook k)]
        exact (List.Perm.filterMap _ hUperm).trans
          (by rw [filterMap_lookup_self hnT1])
      refine ⟨_, by rw [addSNPs_pos_pass hpass]; exact mergeStage_merge hgpass, ?_, ?_⟩
      · exact (sortSNPs_perm _).trans (by rw [hmt]; exact hmperm)
      · intro k
        have hnm : (keys (mergedTable (sortSNPs (doubleSingleAlleles t "X"))
            (doubleSingleAlleles t "X"))).Nodup := nodup_keys_mergedTable hnT1 hnt'
        rw [lookup_sortSNPs hnm, lookup_mergedTable hnT1 hnt', hlook k]
        cases hka : lookup (sortSNPs (doubleSingleAlleles t "X")) k with
        | none => rfl
        | some a =>
          simp only [Option.map_some']
          unfold nullDiscrepant
          rw [hdg]
          simp [discrepantKeys]

theorem addSNPs_of_compat {acc cand : Table} {posT genoT : Nat}
    (ha : (keys acc).Nodup) (hb : (keys (doubleSingleAlleles cand "X")).Nodup)
    (hp : 0 < posT) (hg : 0 < genoT)
    (hcompat : ∀ p ∈ commonSNPs acc (doubleSingleAlleles cand "X"),
      p.1.chrom = p.2.chrom ∧ p.1.pos = p.2.pos ∧
      (p.1.genotype = p.2.genotype ∨ p.1.genotype = none ∨ p.2.genotype = none)) :
    ∃ T, addSNPs (some acc) (some cand) posT genoT = some T ∧ (keys T).Nodup ∧
      ∀ k, lookup T k = combineRow acc (doubleSingleAlleles cand "X") k := by
  have hdp : discrepantPositionsOf acc (doubleSingleAlleles cand "X") = [] :=
    discrepantPositionsOf_eq_nil_of_compat
      (fun p hp' => ⟨(hcompat p hp').1, (hcompat p hp').2.1⟩)
  have hdg : discrepantGenotypesOf acc (doubleSingleAlleles cand "X") = [] :=
    discrepantGenotypesOf_eq_nil_of_compat (fun p hp' => (hcompat p hp').2.2)
  have hmerge : addSNPs (some acc) (some cand) posT genoT =
      some (sortSNPs (mergedTable acc (doubleSingleAlleles cand "X"))) := by
    rw [addSNPs_pos_pass (by rw [hdp]; simpa using hp)]
    exact mergeStage_merge (by rw [hdg]; simpa using hg)
  refine ⟨_, hmerge,
    ((keys_perm (sortSNPs_perm _)).nodup_iff).mpr (nodup_keys_mergedTable ha hb), ?_⟩
  intro k
  rw [lookup_sortSNPs (nodup_keys_mergedTable ha hb), lookup_mergedTable ha hb]
  cases hcr : combineRow acc (doubleSingleAlleles cand "X") k with
  | none => rfl
  | some r =>
    simp only [Option.map_some']
    unfold nullDiscrepant
    rw [hdg]
    simp [discrepantKeys]

/-- Witness for C7 on a one-row table. -/
theorem reconcile_idempotent_witness :
    ∃ T1, addSNPs none
        (some [{ rsid := "rs1", chrom := "1", pos := 100, genotype := some "AG" }])
        100 10000 = some T1 ∧
      ∃ T2, addSNPs (some T1)
          (some [{ rsid := "rs1", chrom := "1", pos := 100, genotype := some "AG" }])
          100 10000 = some T2 ∧
        T2.Perm T1 ∧ ∀ k, lookup T2 k = lookup T1 k :=
  reconcile_idempotent [{ rsid := "rs1", chrom := "1", pos := 100, genotype := some "AG" }]
    100 10000 (by decide)

/-- Counterexample to C8 as stated: with first source `rs1 = AG` and
second source `rs1 = GA` at the same chromosome and position, no key is
position- or genotype-discrepant in either load order (AG/GA are
order-insensitively equivalent), yet the two load orders produce
different accumulated tables: the first-loaded genotype wins. -/
theorem order_sensitivity_counterexample :
    (discrepantPositionsOf
        (sortSNPs (doubleSingleAlleles
          [{ rsid := "rs1", chrom := "1", pos := 100, genotype := some "AG" }] "X"))
        (doubleSingleAlleles
          [{ rsid := "rs1", chrom := "1", pos := 100, genotype := some "GA" }] "X") = [] ∧
     discrepantGenotypesOf
        (sortSNPs (doubleSingleAlleles
          [{ rsid := "rs1", chrom := "1", pos := 100, genotype := some "AG" }] "X"))
        (doubleSingleAlleles
          [{ rsid := "rs1", chrom := "1", pos := 100, genotype := some "GA" }] "X") = [] ∧
     discrepantPositionsOf
        (sortSNPs (doubleSingleAlleles
          [{ rsid := "rs1", chrom := "1", pos := 100, genotype := some "GA" }] "X"))
        (doubleSingleAlleles
          [{ rsid := "rs1", chrom := "1", pos := 100, genotype := some "AG" }] "X") = [] ∧
     discrepantGenotypesOf
        (sortSNPs (doubleSingleAlleles
          [{ rsid := "rs1", chrom := "1", pos := 100, genotype := some "GA" }] "X"))
        (doubleSingleAlleles
          [{ rsid := "rs1", chrom := "1", pos := 100, genotype := some "AG" }] "X") = []) ∧
    addAll none
        [some [{ rsid := "rs1", chrom := "1", pos := 100, genotype := some "AG" }],
         some [{ rsid := "rs1", chrom := "1", pos := 100, genotype := some "GA" }]]
        100 10000 ≠
      addAll none
        [some [{ rsid := "rs1", chrom := "1", pos := 100, genotype := some "GA" }],
         some [{ rsid := "rs1", chrom := "1", pos := 100, genotype := some "AG" }]]
        100 10000 := by decide

/-- C8 (amended): loading two sources in either order from an empty
individual yields the same accumulated table as a keyed mapping (same
rows up to permutation, identical per-rsid lookups) when every common
key (after X normalization) has equal chromosome and position and its
genotypes are equal as strings or null on at least one side; genotypes
that are only order-insensitively equivalent (such as AG versus GA, see
the counterexample) or mixed-length do break commutativity, the
first-loaded value winning.  On a position-conflicted common key below
the threshold, the first-loaded source's chromosome and position win
regardless of order (instantiating the sources swapped gives the other
order). -/
theorem order_sensitivity_amended :
    (∀ (A B : Table) (posT genoT : Nat), (keys A).Nodup → (keys B).Nodup →
      0 < posT → 0 < genoT →
      (∀ a ∈ doubleSingleAlleles A "X", ∀ b ∈ doubleSingleAlleles B "X",
        a.rsid = b.rsid → a.chrom = b.chrom ∧ a.pos = b.pos ∧
          (a.genotype = b.genotype ∨ a.genotype = none ∨ b.genotype = none)) →
      ∃ TAB, addAll none [some A, some B] posT genoT = some TAB ∧
      ∃ TBA, addAll none [some B, some A] posT genoT = some TBA ∧
        TAB.Perm TBA ∧ ∀ k, lookup TAB k = lookup TBA k) ∧
    (∀ (A B : Table) (posT genoT : Nat), (keys A).Nodup → (keys B).Nodup →
      ∀ p ∈ discrepantPositionsOf (sortSNPs (doubleSingleAlleles A "X"))
          (doubleSingleAlleles B "X"),
      ∀ T, addAll none [some A, some B] posT genoT = some T →
      (discrepantPositionsOf (sortSNPs (doubleSingleAlleles A "X"))
          (doubleSingleAlleles B "X")).length < posT →
      ∃ r, lookup T p.1.rsid = some r ∧ r.chrom = p.1.chrom ∧ r.pos = p.1.pos) := by
  constructor
  · intro A B posT genoT hA hB hp hg hcompat
    have hnA' : (keys (doubleSingleAlleles A "X")).Nodup := by
      rw [keys_doubleSingleAlleles]
      exact hA
    have hnB' : (keys (doubleSingleAlleles B "X")).Nodup := by
      rw [keys_doubleSingleAlleles]
      exact hB
    have hpermA : (sortSNPs (doubleSingleAlleles A "X")).Perm (doubleSingleAlleles A "X") :=
      sortSNPs_perm _
    have hpermB : (sortSNPs (doubleSingleAlleles B "X")).Perm (doubleSingleAlleles B "X") :=
      sortSNPs_perm _
    have hnTA : (keys (sortSNPs (doubleSingleAlleles A "X"))).Nodup :=
      ((keys_perm hpermA).nodup_iff).mpr hnA'
    have hnTB : (keys (sortSNPs (doubleSingleAlleles B "X"))).Nodup :=
      ((keys_perm hpermB).nodup_iff).mpr hnB'
    have hcAB : ∀ p ∈ commonSNPs (sortSNPs (doubleSingleAlleles A "X"))
        (doubleSingleAlleles B "X"),
        p.1.chrom = p.2.chrom ∧ p.1.pos = p.2.pos ∧
        (p.1.genotype = p.2.genotype ∨ p.1.genotype = none ∨ p.2.genotype = none) := by
      intro p hp'
      rcases mem_commonSNPs.mp hp' with ⟨h1, h2⟩
      exact hcompat p.1 (hpermA.mem_iff.mp h1) p.2 (lookup_mem h2) (lookup_rsid h2).symm
    have hcBA : ∀ p ∈ commonSNPs (sortSNPs (doubleSingleAlleles B "X"))
        (doubleSingleAlleles A "X"),
        p.1.chrom = p.2.chrom ∧ p.1.pos = p.2.pos ∧
        (p.1.genotype = p.2.genotype ∨ p.1.genotype = none ∨ p.2.genotype = none) := by
      intro p hp'
      rcases mem_commonSNPs.mp hp' with ⟨h1, h2⟩
      have h := hcompat p.2 (lookup_mem h2) p.1 (hpermB.mem_iff.mp h1) (lookup_rsid h2)
      refine ⟨h.1.symm, h.2.1.symm, ?_⟩
      rcases h.2.2 with h3 | h3 | h3
      · exact .inl h3.symm
      · exact .inr (.inr h3)
      · exact .inr (.inl h3)
    obtain ⟨TAB, hTAB, hnAB, hlAB⟩ := addSNPs_of_compat hnTA hnB' hp hg hcAB
    obtain ⟨TBA, hTBA, hnBA, hlBA⟩ := addSNPs_of_compat hnTB hnA' hp hg hcBA
    have hleq : ∀ k, lookup TAB k = lookup TBA k := by
      intro k
      rw [hlAB k, hlBA k]
      unfold combineRow
      rw [lookup_sortSNPs hnA' k, lookup_sortSNPs hnB' k]
      cases h1 : lookup (doubleSingleAlleles A "X") k with
      | none =>
        cases h2 : lookup (doubleSingleAlleles B "X") k with
        | none => rfl
        | some b => rfl
      | some a =>
        cases h2 : lookup (doubleSingleAlleles B "X") k with
        | none => rfl
        | some b =>
          have hab := hcompat a (lookup_mem h1) b (lookup_mem h2)
            (by rw [lookup_rsid h1, lookup_rsid h2])
          show some (⟨k, a.chrom, a.pos, a.genotype.or b.genotype⟩ : SNP) =
            some (⟨k, b.chrom, b.pos, b.genotype.or a.genotype⟩ : SNP)
          rw [hab.1, hab.2.1]
          rcases hab.2.2 with heq | hna | hnb
          · rw [heq]
          · rw [hna, Option.none_or, Option.or_none]
          · rw [hnb, Option.none_or, Option.or_none]
    refine ⟨TAB, hTAB, TBA, hTBA, ?_, hleq⟩
    apply (List.perm_ext_iff_of_nodup (nodup_of_keys_nodup hnAB)
      (nodup_of_keys_nodup hnBA)).mpr
    intro r
    constructor
    · intro hr
      have h := (lookup_eq_some_iff hnAB).mpr ⟨hr, rfl⟩
      rw [hleq r.rsid] at h
      exact ((lookup_eq_some_iff hnBA).mp h).1
    · intro hr
      have h := (lookup_eq_some_iff hnBA).mpr ⟨hr, rfl⟩
      rw [← hleq r.rsid] at h
      exact ((lookup_eq_some_iff hnAB).mp h).1
  · intro A B posT genoT hA hB p hp' T hT hlt
    have hnA' : (keys (doubleSingleAlleles A "X")).Nodup := by
      rw [keys_doubleSingleAlleles]
      exact hA
    have hnB' : (keys (doubleSingleAlleles B "X")).Nodup := by
      rw [keys_doubleSingleAlleles]
      exact hB
    have hnTA : (keys (sortSNPs (doubleSingleAlleles A "X"))).Nodup :=
      ((keys_perm (sortSNPs_perm _)).nodup_iff).mpr hnA'
    have hpc : p ∈ commonSNPs (sortSNPs (doubleSingleAlleles A "X"))
        (doubleSingleAlleles B "X") := by
      unfold discrepantPositionsOf at hp'
      exact (List.mem_filter.mp hp').1
    have hT' : mergeStage (sortSNPs (doubleSingleAlleles A "X"))
        (doubleSingleAlleles B "X") genoT = some T := by
      have hfold : addAll none [some A, some B] posT genoT =
          addSNPs (some (sortSNPs (doubleSingleAlleles A "X"))) (some B) posT genoT := rfl
      rw [hfold, addSNPs_pos_pass hlt] at hT
      exact hT
    exact lookup_after_merge hnTA hnB' hpc hT'

/-- Witness for the amended C8: two sources with disjoint keys commute. -/
theorem order_sensitivity_amended_witness :
    ∃ TAB, addAll none
        [some [{ rsid := "rs1", chrom := "1", pos := 1, genotype := some "AA" }],
         some [{ rsid := "rs2", chrom := "1", pos := 2, genotype := none }]]
        100 10000 = some TAB ∧
      ∃ TBA, addAll none
          [some [{ rsid := "rs2", chrom := "1", pos := 2, genotype := none }],
           some [{ rsid := "rs1", chrom := "1", pos := 1, genotype := some "AA" }]]
          100 10000 = some TBA ∧
        TAB.Perm TBA ∧ ∀ k, lookup TAB k = lookup TBA k :=
  order_sensitivity_amended.1
    [{ rsid := "rs1", chrom := "1", pos := 1, genotype := some "AA" }]
    [{ rsid := "rs2", chrom := "1", pos := 2, genotype := none }]
    100 10000 (by decide) (by decide) (by decide) (by decide) (by decide)

end Lineage
